import Mathlib

/-!
Verification of the fuzzy-navigation simulator core.

The definitions below are a shallow embedding of the Rust sources:
`src/fuzzy_system/{membership,sets,variables,rules,system}.rs`,
`src/navigation/mod.rs`, `src/map/mod.rs`, `src/vehicle/mod.rs` and
`src/simulation/mod.rs`.  Floating-point numbers are modelled as real
numbers with exact arithmetic; `f64::EPSILON` is kept as the explicit
constant `f64Epsilon`; Rust `HashMap`s are modelled as association lists
queried with last-binding-wins lookup (matching insertion-order overwrite
semantics).
-/

open Real

noncomputable section

/-- The machine epsilon of `f64`, `f64::EPSILON = 2⁻⁵²`. -/
def f64Epsilon : ℝ := 1 / 2 ^ 52

/-- Degrees to radians, Rust `f64::to_radians`. -/
def toRadians (x : ℝ) : ℝ := x * (Real.pi / 180)

/-- Radians to degrees, Rust `f64::to_degrees`. -/
def toDegrees (x : ℝ) : ℝ := x * (180 / Real.pi)

/-- The closed sum of membership-function variants
(`src/fuzzy_system/membership.rs`). -/
inductive MembershipFunction where
  | triangularMF (a b c : ℝ)
  | trapezoidalMF (a b c d : ℝ)
  | gaussianMF (mean sigma : ℝ)
  | sigmoidalMF (a c : ℝ)

/-- `MembershipFunction::evaluate`, one arm per `impl` in
`src/fuzzy_system/membership.rs`, including the `f64::EPSILON`
degenerate-denominator guards. -/
def MembershipFunction.evaluate : MembershipFunction → ℝ → ℝ
  | .triangularMF a b c, input =>
      if input < a ∨ input > c then 0
      else if |input - b| < f64Epsilon then 1
      else if input < b then
        if |b - a| < f64Epsilon then 0 else (input - a) / (b - a)
      else
        if |c - b| < f64Epsilon then 0 else (c - input) / (c - b)
  | .trapezoidalMF a b c d, input =>
      if input < a ∨ input > d then 0
      else if b ≤ input ∧ input ≤ c then 1
      else if input < b then
        if |b - a| < f64Epsilon then 0 else (input - a) / (b - a)
      else
        if |d - c| < f64Epsilon then 0 else (d - input) / (d - c)
  | .gaussianMF mean sigma, input =>
      Real.exp (-((input - mean) ^ 2) / (2 * sigma ^ 2))
  | .sigmoidalMF a c, input =>
      1 / (1 + Real.exp (-a * (input - c)))

/-- Helper constructor `triangular` with its `assert!` precondition
(`membership.rs` line 92); `none` models the `panic!` abort. -/
def triangular (a b c : ℝ) : Option MembershipFunction :=
  if a ≤ b ∧ b ≤ c then some (.triangularMF a b c) else none

/-- Helper constructor `trapezoidal` with its `assert!` precondition. -/
def trapezoidal (a b c d : ℝ) : Option MembershipFunction :=
  if a ≤ b ∧ b ≤ c ∧ c ≤ d then some (.trapezoidalMF a b c d) else none

/-- Helper constructor `gaussian` with its `assert!` precondition. -/
def gaussian (mean sigma : ℝ) : Option MembershipFunction :=
  if sigma > 0 then some (.gaussianMF mean sigma) else none

/-- Helper constructor `sigmoidal` with its `assert!` precondition:
the source checks `a.abs() > f64::EPSILON`. -/
def sigmoidal (a c : ℝ) : Option MembershipFunction :=
  if |a| > f64Epsilon then some (.sigmoidalMF a c) else none

/-- `FuzzySet` from `src/fuzzy_system/sets.rs`: a name bound to one
membership function. -/
structure FuzzySet where
  name : String
  membership_function : MembershipFunction

/-- `FuzzySet::evaluate`. -/
def FuzzySet.evaluate (s : FuzzySet) (input : ℝ) : ℝ :=
  s.membership_function.evaluate input

/-- Last-binding-wins association-list lookup: the model of reading a
`HashMap` that was filled by successive inserts (a later insert for the
same key overwrites the earlier one). -/
def lookupLast {α : Type} (l : List (String × α)) (k : String) : Option α :=
  (l.reverse.find? (fun p => p.1 == k)).map (fun p => p.2)

/-- `LinguisticVariable` from `src/fuzzy_system/variables.rs`. -/
structure LinguisticVariable where
  name : String
  fuzzy_sets : List FuzzySet
  range : ℝ × ℝ

/-- `LinguisticVariable::fuzzify`: evaluate every owned set at the value,
collected into a map from set name to degree. -/
def LinguisticVariable.fuzzify (v : LinguisticVariable) (value : ℝ) :
    List (String × ℝ) :=
  v.fuzzy_sets.map (fun s => (s.name, s.evaluate value))

/-- `Antecedent` from `src/fuzzy_system/rules.rs` (constructor argument
order in the source is `(set, variable)`). -/
structure Antecedent where
  set : String
  var : String

/-- `Consequent` from `src/fuzzy_system/rules.rs`. -/
structure Consequent where
  set : String
  var : String

/-- `RuleOperator` from `src/fuzzy_system/rules.rs`. -/
inductive RuleOperator where
  | And
  | Or
deriving DecidableEq

/-- `FuzzyRule` from `src/fuzzy_system/rules.rs`. -/
structure FuzzyRule where
  antecedents : List Antecedent
  consequents : List Consequent
  operator : RuleOperator

/-- The degree one antecedent contributes: look up its variable in the
fuzzification mapping, then its set in that sub-mapping. -/
def resolveAntecedent (inputs : String → Option (String → Option ℝ))
    (a : Antecedent) : Option ℝ :=
  (inputs a.var).bind (fun m => m a.set)

/-- `FuzzyRule::evaluate`: collect the degrees of the antecedents that
resolve, return 0 when none did, else reduce with min (AND) or max (OR).
The Rust `reduce` folds the tail onto the head. -/
def FuzzyRule.evaluate (r : FuzzyRule)
    (inputs : String → Option (String → Option ℝ)) : ℝ :=
  let degrees := r.antecedents.filterMap (resolveAntecedent inputs)
  match degrees with
  | [] => 0
  | d :: ds =>
    match r.operator with
    | .And => ds.foldl min d
    | .Or => ds.foldl max d

/-- `Defuzzifier` namespace marker (`src/fuzzy_system/variables.rs`). -/
def defuzzifierSteps : ℕ := 1000

/-- The aggregated membership at one sample point: the loop body of
`Defuzzifier::centroid` — max over the output sets of
`min(set.evaluate(x), activation)`, starting from `0.0`, skipping sets
absent from the activation map. -/
def aggregatedMembership (outputVar : LinguisticVariable)
    (activated : List (String × ℝ)) (x : ℝ) : ℝ :=
  outputVar.fuzzy_sets.foldl
    (fun acc s =>
      match lookupLast activated s.name with
      | some degree => max acc (min (s.evaluate x) degree)
      | none => acc) 0

/-- `Defuzzifier::centroid`: Riemann-sum centroid over 1000 equal steps
(1001 sample points), with the midpoint fallback when the accumulated
denominator is below `f64::EPSILON`. -/
def Defuzzifier.centroid (outputVar : LinguisticVariable)
    (activated : List (String × ℝ)) : ℝ :=
  let stepSize := (outputVar.range.2 - outputVar.range.1) / defuzzifierSteps
  let sample := fun i : ℕ => outputVar.range.1 + i * stepSize
  let numerator := ∑ i ∈ Finset.range (defuzzifierSteps + 1),
    sample i * aggregatedMembership outputVar activated (sample i)
  let denominator := ∑ i ∈ Finset.range (defuzzifierSteps + 1),
    aggregatedMembership outputVar activated (sample i)
  if denominator < f64Epsilon then
    (outputVar.range.1 + outputVar.range.2) / 2
  else
    numerator / denominator

/-- `DefuzzificationMethod` from `src/fuzzy_system/variables.rs`. -/
inductive DefuzzificationMethod where
  | Centroid

/-- `FuzzySystem` from `src/fuzzy_system/system.rs`. -/
structure FuzzySystem where
  name : String
  input_variables : List LinguisticVariable
  output_variable : LinguisticVariable
  rules : List FuzzyRule
  defuzzification_method : DefuzzificationMethod

/-- The `activated_outputs` update of `FuzzySystem::evaluate`:
`entry = activated.entry(set).or_insert(0.0); *entry = entry.max(degree)`. -/
def updateMax : List (String × ℝ) → String → ℝ → List (String × ℝ)
  | [], k, d => [(k, max 0 d)]
  | (k₀, v) :: rest, k, d =>
      if k₀ == k then (k₀, max v d) :: rest else (k₀, v) :: updateMax rest k d

/-- The fuzzification phase of `FuzzySystem::evaluate`: fuzzify each input
variable that is present in the caller input map; absent variables are
skipped. -/
def FuzzySystem.fuzzyfiedInputs (sys : FuzzySystem)
    (inputs : List (String × ℝ)) : List (String × List (String × ℝ)) :=
  sys.input_variables.filterMap
    (fun v => (lookupLast inputs v.name).map (fun x => (v.name, v.fuzzify x)))

/-- The rule-aggregation phase of `FuzzySystem::evaluate`: for each rule,
compute its firing strength; for each consequent naming an existing
output set, raise the activation of that set to the max with the strength. -/
def FuzzySystem.activatedOutputs (sys : FuzzySystem)
    (inputs : List (String × ℝ)) : List (String × ℝ) :=
  let fuzzyfied := sys.fuzzyfiedInputs inputs
  let lookupF : String → Option (String → Option ℝ) :=
    fun vn => (lookupLast fuzzyfied vn).map (fun m sn => lookupLast m sn)
  sys.rules.foldl
    (fun acc rule =>
      let degree := rule.evaluate lookupF
      rule.consequents.foldl
        (fun acc c =>
          if sys.output_variable.fuzzy_sets.any (fun s => s.name == c.set)
          then updateMax acc c.set degree
          else acc) acc) []

/-- `FuzzySystem::evaluate`: fuzzification, rule aggregation, centroid
defuzzification; returns the output-variable name and the crisp value. -/
def FuzzySystem.evaluate (sys : FuzzySystem) (inputs : List (String × ℝ)) :
    String × ℝ :=
  (sys.output_variable.name,
    Defuzzifier.centroid sys.output_variable (sys.activatedOutputs inputs))

/-- `VehicleCharacteristics` from `src/vehicle/mod.rs`. -/
structure VehicleCharacteristics where
  size : ℝ
  maneuverability : ℝ
  max_velocity : ℝ
  max_acceleration : ℝ

/-- The `distancia_al_objetivo` input variable built by
`NavigationController::new` (`src/navigation/mod.rs` lines 38-42). -/
def navDistVar : LinguisticVariable :=
  { name := "distancia_al_objetivo"
    fuzzy_sets :=
      [ ⟨"muy_cerca", .trapezoidalMF 0 0 50 100⟩
      , ⟨"media", .triangularMF 80 200 400⟩
      , ⟨"lejos", .trapezoidalMF 350 500 1000 1000⟩ ]
    range := (0, 1000) }

/-- The `error_angular` input variable (`src/navigation/mod.rs`
lines 47-69), boundaries given in degrees converted to radians. -/
def navErrorVar : LinguisticVariable :=
  { name := "error_angular"
    fuzzy_sets :=
      [ ⟨"alineado", .trapezoidalMF (toRadians (-10)) (toRadians (-5))
          (toRadians 5) (toRadians 10)⟩
      , ⟨"desviado_izq", .triangularMF (toRadians (-90)) (toRadians (-45))
          (toRadians (-10))⟩
      , ⟨"desviado_der", .triangularMF (toRadians 10) (toRadians 45)
          (toRadians 90)⟩
      , ⟨"muy_desviado_izq", .trapezoidalMF (-Real.pi) (toRadians (-150))
          (toRadians (-120)) (toRadians (-70))⟩
      , ⟨"muy_desviado_der", .trapezoidalMF (toRadians 70) (toRadians 120)
          (toRadians 150) Real.pi⟩ ]
    range := (-Real.pi, Real.pi) }

/-- The `velocidad_relativa` input variable (`src/navigation/mod.rs`
lines 72-76). -/
def navVelVar : LinguisticVariable :=
  { name := "velocidad_relativa"
    fuzzy_sets :=
      [ ⟨"lenta", .triangularMF 0 0 0.3⟩
      , ⟨"media", .triangularMF 0.2 0.5 0.8⟩
      , ⟨"rapida", .trapezoidalMF 0.7 1 1 1⟩ ]
    range := (0, 1) }

/-- The `ajuste_angular` output variable (`src/navigation/mod.rs`
lines 79-100), set boundaries scaled by the maneuverability `m`. -/
def navOutVar (m : ℝ) : LinguisticVariable :=
  { name := "ajuste_angular"
    fuzzy_sets :=
      [ ⟨"girar_izq", .triangularMF (-m) (-0.7 * m) (-0.3 * m)⟩
      , ⟨"leve_izq", .triangularMF (-0.4 * m) (-0.2 * m) 0⟩
      , ⟨"mantener", .triangularMF (-0.1 * m) 0 (0.1 * m)⟩
      , ⟨"leve_der", .triangularMF 0 (0.2 * m) (0.4 * m)⟩
      , ⟨"girar_der", .triangularMF (0.3 * m) (0.7 * m) m⟩ ]
    range := (-m, m) }

/-- One AND rule with two antecedents (distance set, angular-error set)
and one consequent on `ajuste_angular`. -/
def navPairRule (distSet errSet outSet : String) : FuzzyRule :=
  { antecedents :=
      [ ⟨distSet, "distancia_al_objetivo"⟩, ⟨errSet, "error_angular"⟩ ]
    consequents := [ ⟨outSet, "ajuste_angular"⟩ ]
    operator := .And }

/-- One AND override rule with a single angular-error antecedent. -/
def navOverrideRule (errSet outSet : String) : FuzzyRule :=
  { antecedents := [ ⟨errSet, "error_angular"⟩ ]
    consequents := [ ⟨outSet, "ajuste_angular"⟩ ]
    operator := .And }

/-- The rule list pushed by `NavigationController::new`
(`src/navigation/mod.rs` lines 109-210), in push order:
R1..R7, R8a, R8b, R9, R10. -/
def navRules : List FuzzyRule :=
  [ navPairRule "lejos" "alineado" "mantener"
  , navPairRule "lejos" "desviado_der" "girar_der"
  , navPairRule "lejos" "desviado_izq" "girar_izq"
  , navPairRule "media" "alineado" "mantener"
  , navPairRule "media" "desviado_der" "leve_der"
  , navPairRule "media" "desviado_izq" "leve_izq"
  , navPairRule "muy_cerca" "alineado" "mantener"
  , navOverrideRule "muy_desviado_izq" "girar_izq"
  , navOverrideRule "muy_desviado_der" "girar_der"
  , navPairRule "muy_cerca" "desviado_izq" "leve_izq"
  , navPairRule "muy_cerca" "desviado_der" "leve_der" ]

/-- `NavigationController` from `src/navigation/mod.rs`. -/
structure NavigationController where
  fuzzy_system : FuzzySystem
  maneuverability : ℝ
  max_acceleration : ℝ

/-- `NavigationController::new`: the fixed-topology fuzzy system with the
three input variables, the maneuverability-scaled output variable and the
rule list, in the push order of the source. -/
def NavigationController.new (ch : VehicleCharacteristics) :
    NavigationController :=
  { fuzzy_system :=
      { name := "Navigation Controller"
        input_variables := [navDistVar, navErrorVar, navVelVar]
        output_variable := navOutVar ch.maneuverability
        rules := navRules
        defuzzification_method := .Centroid }
    maneuverability := ch.maneuverability
    max_acceleration := ch.max_acceleration }

/-- `NavigationController::compute_control`: evaluate the fuzzy system on
the three named inputs; the velocity adjustment is the constant 0. -/
def NavigationController.compute_control (nc : NavigationController)
    (distance_to_target angular_error velocity_relative : ℝ) : ℝ × ℝ :=
  let inputs :=
    [ ("distancia_al_objetivo", distance_to_target)
    , ("error_angular", angular_error)
    , ("velocidad_relativa", velocity_relative) ]
  ((nc.fuzzy_system.evaluate inputs).2, 0)

/-- `Point` from `src/map/mod.rs`. -/
structure Point where
  x : ℝ
  y : ℝ

/-- `Target` from `src/map/mod.rs`: position plus required arrival angle. -/
structure Target where
  position : Point
  required_angle : ℝ

/-- `StartZone` from `src/map/mod.rs`. -/
structure StartZone where
  height_percentage : ℝ

/-- `Map` from `src/map/mod.rs`. Named `NavMap` because `Map` collides
with the Lean library. -/
structure NavMap where
  width : ℝ
  height : ℝ
  start_zone : StartZone
  target : Target

/-- `Map::new`: fixed 8% start zone and required arrival angle π/2. -/
def NavMap.new (width height target_x target_y : ℝ) : NavMap :=
  { width := width
    height := height
    start_zone := ⟨0.08⟩
    target := ⟨⟨target_x, target_y⟩, Real.pi / 2⟩ }

/-- `euclidean_distance` from `src/map/mod.rs`. -/
def euclidean_distance (p₁ p₂ : Point) : ℝ :=
  Real.sqrt ((p₂.x - p₁.x) * (p₂.x - p₁.x) + (p₂.y - p₁.y) * (p₂.y - p₁.y))

/-- First loop of `normalize_angle`: subtract 2π while the value exceeds
π.  The loop of the source terminates because each iteration lowers the
integer ceiling of `(x − π)/(2π)`; that ceiling is the termination
measure here. -/
def normalizeSub (x : ℝ) : ℝ :=
  if h : x > Real.pi then normalizeSub (x - 2 * Real.pi) else x
termination_by (⌈(x - Real.pi) / (2 * Real.pi)⌉).toNat
decreasing_by
  have hπ : (0:ℝ) < Real.pi := Real.pi_pos
  have h2π : (0:ℝ) < 2 * Real.pi := by linarith
  have harg : (x - 2 * Real.pi - Real.pi) / (2 * Real.pi)
      = (x - Real.pi) / (2 * Real.pi) - 1 := by
    field_simp
    ring
  have hpos : 0 < (x - Real.pi) / (2 * Real.pi) :=
    div_pos (by linarith) h2π
  have hceil : (0:ℤ) < ⌈(x - Real.pi) / (2 * Real.pi)⌉ :=
    Int.ceil_pos.mpr hpos
  have : ⌈(x - 2 * Real.pi - Real.pi) / (2 * Real.pi)⌉
      = ⌈(x - Real.pi) / (2 * Real.pi)⌉ - 1 := by
    rw [harg]
    exact_mod_cast Int.ceil_sub_int ((x - Real.pi) / (2 * Real.pi)) 1
  rw [this]
  omega

/-- Second loop of `normalize_angle`: add 2π while the value is below
−π; same termination argument mirrored. -/
def normalizeAdd (x : ℝ) : ℝ :=
  if h : x < -Real.pi then normalizeAdd (x + 2 * Real.pi) else x
termination_by (⌈(-Real.pi - x) / (2 * Real.pi)⌉).toNat
decreasing_by
  have hπ : (0:ℝ) < Real.pi := Real.pi_pos
  have h2π : (0:ℝ) < 2 * Real.pi := by linarith
  have harg : (-Real.pi - (x + 2 * Real.pi)) / (2 * Real.pi)
      = (-Real.pi - x) / (2 * Real.pi) - 1 := by
    field_simp
    ring
  have hpos : 0 < (-Real.pi - x) / (2 * Real.pi) :=
    div_pos (by linarith) h2π
  have hceil : (0:ℤ) < ⌈(-Real.pi - x) / (2 * Real.pi)⌉ :=
    Int.ceil_pos.mpr hpos
  have : ⌈(-Real.pi - (x + 2 * Real.pi)) / (2 * Real.pi)⌉
      = ⌈(-Real.pi - x) / (2 * Real.pi)⌉ - 1 := by
    rw [harg]
    exact_mod_cast Int.ceil_sub_int ((-Real.pi - x) / (2 * Real.pi)) 1
  rw [this]
  omega

/-- `normalize_angle` from `src/map/mod.rs`: the subtract loop runs
first, then the add loop, exactly as in the source. -/
def normalize_angle (angle : ℝ) : ℝ :=
  normalizeAdd (normalizeSub angle)

/-- `f64::atan2(y, x)` with the usual C quadrant conventions. -/
def atan2 (y x : ℝ) : ℝ :=
  if 0 < x then Real.arctan (y / x)
  else if x < 0 then
    if 0 ≤ y then Real.arctan (y / x) + Real.pi
    else Real.arctan (y / x) - Real.pi
  else
    if 0 < y then Real.pi / 2
    else if y < 0 then -(Real.pi / 2)
    else 0

/-- `compute_angular_error` from `src/map/mod.rs`: normalized signed
difference between the bearing toward the target point and the current
heading. -/
def compute_angular_error (current_pos : Point) (current_angle : ℝ)
    (target_pos : Point) : ℝ :=
  let dx := target_pos.x - current_pos.x
  let dy := target_pos.y - current_pos.y
  normalize_angle (atan2 dy dx - current_angle)

/-- `compute_angular_error_with_arrival` from `src/map/mod.rs`: beyond
120 units aim at the target; within that radius aim at a point offset
straight below the target (lower y) by `100·(d/120)^1.5`. -/
def compute_angular_error_with_arrival (current_pos : Point)
    (current_angle : ℝ) (target : Target) (distance_to_target : ℝ) : ℝ :=
  let APPROACH_START : ℝ := 120
  let MAX_OFFSET : ℝ := 100
  if distance_to_target > APPROACH_START then
    compute_angular_error current_pos current_angle target.position
  else
    let t := distance_to_target / APPROACH_START
    let offset := MAX_OFFSET * t ^ (1.5 : ℝ)
    let approach_point : Point :=
      ⟨target.position.x, target.position.y - offset⟩
    compute_angular_error current_pos current_angle approach_point

/-- Modelled from the spec (§4.6): the variant of the terminal-approach
blending in which the aim point is displaced from the target *opposite
the required-arrival-angle direction* by the same offset.  Used only to
compare the spec wording against the source. -/
def compute_angular_error_with_arrival_spec (current_pos : Point)
    (current_angle : ℝ) (target : Target) (distance_to_target : ℝ) : ℝ :=
  let APPROACH_START : ℝ := 120
  let MAX_OFFSET : ℝ := 100
  if distance_to_target > APPROACH_START then
    compute_angular_error current_pos current_angle target.position
  else
    let t := distance_to_target / APPROACH_START
    let offset := MAX_OFFSET * t ^ (1.5 : ℝ)
    let approach_point : Point :=
      ⟨target.position.x - offset * Real.cos target.required_angle,
       target.position.y - offset * Real.sin target.required_angle⟩
    compute_angular_error current_pos current_angle approach_point

/-- `clamp` from `src/map/mod.rs`. -/
def clamp (value min max : ℝ) : ℝ :=
  if value < min then min else if value > max then max else value

/-- `VehicleState` from `src/vehicle/mod.rs`. -/
structure VehicleState where
  position : Point
  angle : ℝ
  velocity : ℝ

/-- `VehicleType` from `src/vehicle/mod.rs`. -/
inductive VehicleType where
  | Heavy
  | Standard
  | Agile
  | UltraAgile

/-- `Vehicle` from `src/vehicle/mod.rs`. -/
structure Vehicle where
  vehicle_type : VehicleType
  characteristics : VehicleCharacteristics
  state : VehicleState
  has_arrived : Bool
  distance_traveled : ℝ
  time_elapsed : ℝ

/-- `Vehicle::new`. -/
def Vehicle.new (vehicle_type : VehicleType)
    (characteristics : VehicleCharacteristics) (initial_position : Point)
    (initial_angle : ℝ) : Vehicle :=
  { vehicle_type := vehicle_type
    characteristics := characteristics
    state := ⟨initial_position, initial_angle, 0⟩
    has_arrived := false
    distance_traveled := 0
    time_elapsed := 0 }

/-- `Vehicle::update_position`: move to the new position and add the
Euclidean step length to the accumulated distance. -/
def Vehicle.update_position (v : Vehicle) (new_position : Point) : Vehicle :=
  let dx := new_position.x - v.state.position.x
  let dy := new_position.y - v.state.position.y
  { v with
    distance_traveled := v.distance_traveled + Real.sqrt (dx * dx + dy * dy)
    state := { v.state with position := new_position } }

/-- `create_vehicle_preset` from `src/vehicle/mod.rs`. -/
def create_vehicle_preset : VehicleType → VehicleCharacteristics
  | .Heavy => ⟨15, toRadians 20, 50, 10⟩
  | .Standard => ⟨10, toRadians 35, 80, 20⟩
  | .Agile => ⟨6, toRadians 60, 100, 30⟩
  | .UltraAgile => ⟨8, toRadians 90, 70, 25⟩

/-- `TrajectoryPoint` from `src/simulation/mod.rs` (angle recorded in
degrees). -/
structure TrajectoryPoint where
  t : ℝ
  x : ℝ
  y : ℝ
  angle : ℝ
  velocity : ℝ
  distance_to_target : ℝ

/-- `Simulation` from `src/simulation/mod.rs`. -/
structure Simulation where
  map : NavMap
  vehicle : Vehicle
  controller : NavigationController
  time : ℝ
  dt : ℝ
  max_time : ℝ
  trajectory : List TrajectoryPoint
  distance_threshold : ℝ
  angle_threshold : ℝ
  velocity_threshold : ℝ

/-- `Simulation::new`, with the randomly drawn start position and angle
made explicit parameters (the source draws them from an ambient
generator).  Thresholds are fixed at 25 units and 2 degrees; the vehicle
starts at 10% of its maximum velocity. -/
def Simulation.new (map : NavMap) (vehicle_type : VehicleType)
    (dt max_time : ℝ) (initial_pos : Point) (initial_angle : ℝ) :
    Simulation :=
  let characteristics := create_vehicle_preset vehicle_type
  let constant_velocity := characteristics.max_velocity * 0.10
  let vehicle₀ :=
    Vehicle.new vehicle_type characteristics initial_pos initial_angle
  let vehicle := { vehicle₀ with state :=
    { vehicle₀.state with velocity := constant_velocity } }
  { map := map
    vehicle := vehicle
    controller := NavigationController.new characteristics
    time := 0
    dt := dt
    max_time := max_time
    trajectory := []
    distance_threshold := 25
    angle_threshold := toRadians 2
    velocity_threshold := constant_velocity + 5 }

/-- `Simulation::step`, transcribed in the order of the source: early
return when arrived; distance computation; arrival check before any
movement (recording one final trajectory point); otherwise blended
angular error, controller call, clamping, heading and position
integration, time advance, trajectory append. -/
def Simulation.step (s : Simulation) : Simulation :=
  if s.vehicle.has_arrived then s
  else
    let distance_to_target :=
      euclidean_distance s.vehicle.state.position s.map.target.position
    let angle_error := |s.map.target.required_angle - s.vehicle.state.angle|
    if distance_to_target < s.distance_threshold ∧
        angle_error < s.angle_threshold then
      { s with
        vehicle := { s.vehicle with has_arrived := true }
        trajectory := s.trajectory ++
          [⟨s.time, s.vehicle.state.position.x, s.vehicle.state.position.y,
            toDegrees s.vehicle.state.angle, s.vehicle.state.velocity,
            distance_to_target⟩] }
    else
      let angular_error := compute_angular_error_with_arrival
        s.vehicle.state.position s.vehicle.state.angle s.map.target
        distance_to_target
      let velocity_relative :=
        s.vehicle.state.velocity / s.vehicle.characteristics.max_velocity
      let angular_adjustment := (s.controller.compute_control
        distance_to_target angular_error velocity_relative).1
      let angular_adjustment_clamped := clamp angular_adjustment
        (-s.vehicle.characteristics.maneuverability)
        s.vehicle.characteristics.maneuverability
      let new_angle := normalize_angle
        (s.vehicle.state.angle + angular_adjustment_clamped * s.dt)
      let old_position := s.vehicle.state.position
      let new_x := old_position.x +
        s.vehicle.state.velocity * Real.cos new_angle * s.dt
      let new_y := old_position.y +
        s.vehicle.state.velocity * Real.sin new_angle * s.dt
      let turned := { s.vehicle with state :=
        { s.vehicle.state with angle := new_angle } }
      let moved := turned.update_position ⟨new_x, new_y⟩
      let new_time := s.time + s.dt
      let vehicle := { moved with time_elapsed := new_time }
      { s with
        vehicle := vehicle
        time := new_time
        trajectory := s.trajectory ++
          [⟨new_time, vehicle.state.position.x, vehicle.state.position.y,
            toDegrees vehicle.state.angle, vehicle.state.velocity,
            distance_to_target⟩] }

/-! ## Helper lemmas -/

theorem normalizeSub_le (x : ℝ) : normalizeSub x ≤ Real.pi := by
  induction x using normalizeSub.induct with
  | case1 x h ih =>
    rw [normalizeSub, dif_pos h]
    exact ih
  | case2 x h =>
    rw [normalizeSub, dif_neg h]
    exact le_of_not_lt h

theorem normalizeAdd_ge (x : ℝ) : -Real.pi ≤ normalizeAdd x := by
  induction x using normalizeAdd.induct with
  | case1 x h ih =>
    rw [normalizeAdd, dif_pos h]
    exact ih
  | case2 x h =>
    rw [normalizeAdd, dif_neg h]
    exact le_of_not_lt h

theorem normalizeAdd_le (x : ℝ) (hx : x ≤ Real.pi) :
    normalizeAdd x ≤ Real.pi := by
  induction x using normalizeAdd.induct with
  | case1 x h ih =>
    rw [normalizeAdd, dif_pos h]
    refine ih ?_
    have hπ : (0:ℝ) < Real.pi := Real.pi_pos
    linarith
  | case2 x h =>
    rw [normalizeAdd, dif_neg h]
    exact hx

theorem normalize_angle_mem (angle : ℝ) :
    -Real.pi ≤ normalize_angle angle ∧ normalize_angle angle ≤ Real.pi :=
  ⟨normalizeAdd_ge _, normalizeAdd_le _ (normalizeSub_le angle)⟩

theorem normalize_angle_eq_self (x : ℝ) (h₁ : -Real.pi ≤ x)
    (h₂ : x ≤ Real.pi) : normalize_angle x = x := by
  unfold normalize_angle
  rw [normalizeSub, dif_neg (not_lt.mpr h₂), normalizeAdd,
    dif_neg (not_lt.mpr h₁)]

/-! ## Claims -/

/-- C8: for every input angle, `normalize_angle` terminates (it is a
total function defined by well-founded recursion on the loop measure)
and its result lies in the closed interval [-π, π]. -/
theorem normalize_angle_result_in_range (angle : ℝ) :
    -Real.pi ≤ normalize_angle angle ∧ normalize_angle angle ≤ Real.pi :=
  normalize_angle_mem angle

/-- C9: on a state whose vehicle has arrived, `Simulation::step` is the
identity — position, angle, velocity, distance accumulator, time and
trajectory are all unchanged, so `Arrived` is absorbing.  In general the
trajectory is append-only: every step leaves the existing trajectory a
prefix of the new one. -/
theorem step_noop_after_arrival (s : Simulation)
    (h : s.vehicle.has_arrived = true) :
    Simulation.step s = s ∧
      ∀ s' : Simulation, ∃ l, (Simulation.step s').trajectory
        = s'.trajectory ++ l := by
  constructor
  · simp [Simulation.step, h]
  · intro s'
    unfold Simulation.step
    by_cases h₁ : s'.vehicle.has_arrived
    · exact ⟨[], by simp [h₁]⟩
    · simp only [h₁, Bool.false_eq_true, if_false]
      by_cases h₂ : euclidean_distance s'.vehicle.state.position
          s'.map.target.position < s'.distance_threshold ∧
          |s'.map.target.required_angle - s'.vehicle.state.angle|
            < s'.angle_threshold
      · exact ⟨_, by rw [if_pos h₂]⟩
      · exact ⟨_, by rw [if_neg h₂]⟩

/-- C9 witness: the no-op theorem applied to a concrete arrived state. -/
def demoMap : NavMap := NavMap.new 1000 800 500 700

/-- A concrete simulation state used by the witnesses: a Heavy vehicle
placed at (500, 690) heading π/2, then marked arrived. -/
def demoSimArrived : Simulation :=
  let s := Simulation.new demoMap .Heavy 0.05 600 ⟨500, 690⟩ (Real.pi / 2)
  { s with vehicle := { s.vehicle with has_arrived := true } }

theorem step_noop_after_arrival_witness :
    Simulation.step demoSimArrived = demoSimArrived ∧
      ∀ s' : Simulation, ∃ l, (Simulation.step s').trajectory
        = s'.trajectory ++ l :=
  step_noop_after_arrival demoSimArrived rfl

/-- C1: on a not-yet-arrived state with the standard thresholds (25
units, 2 degrees), `Simulation::step` sets `has_arrived` if and only if,
at entry, the Euclidean distance to the target is strictly below 25 and
the absolute difference between required and current angle is strictly
below 2 degrees in radians.  When both conditions hold, one final
trajectory point is appended and the vehicle state, the distance
accumulator and the time are unchanged (no motion).  When the
conjunction fails, `has_arrived` stays false and the motion update runs:
time advances by `dt`, the position is moved by the kinematic model
along the new heading, and one trajectory point is appended. -/
theorem step_arrival_iff_thresholds (s : Simulation)
    (hna : s.vehicle.has_arrived = false)
    (hd : s.distance_threshold = 25)
    (ha : s.angle_threshold = toRadians 2) :
    ((Simulation.step s).vehicle.has_arrived = true ↔
      (euclidean_distance s.vehicle.state.position s.map.target.position
          < 25 ∧
        |s.map.target.required_angle - s.vehicle.state.angle|
          < toRadians 2)) ∧
    ((euclidean_distance s.vehicle.state.position s.map.target.position
          < 25 ∧
        |s.map.target.required_angle - s.vehicle.state.angle|
          < toRadians 2) →
      ((Simulation.step s).vehicle.state = s.vehicle.state ∧
        (Simulation.step s).vehicle.distance_traveled
          = s.vehicle.distance_traveled ∧
        (Simulation.step s).time = s.time ∧
        (Simulation.step s).trajectory = s.trajectory ++
          [⟨s.time, s.vehicle.state.position.x, s.vehicle.state.position.y,
            toDegrees s.vehicle.state.angle, s.vehicle.state.velocity,
            euclidean_distance s.vehicle.state.position
              s.map.target.position⟩])) ∧
    (¬(euclidean_distance s.vehicle.state.position s.map.target.position
          < 25 ∧
        |s.map.target.required_angle - s.vehicle.state.angle|
          < toRadians 2) →
      ((Simulation.step s).vehicle.has_arrived = false ∧
        (Simulation.step s).time = s.time + s.dt ∧
        (Simulation.step s).vehicle.state.position.x
          = s.vehicle.state.position.x + s.vehicle.state.velocity
            * Real.cos ((Simulation.step s).vehicle.state.angle) * s.dt ∧
        (Simulation.step s).vehicle.state.position.y
          = s.vehicle.state.position.y + s.vehicle.state.velocity
            * Real.sin ((Simulation.step s).vehicle.state.angle) * s.dt ∧
        ∃ pt, (Simulation.step s).trajectory = s.trajectory ++ [pt])) := by
  by_cases hcond :
      euclidean_distance s.vehicle.state.position s.map.target.position
          < 25 ∧
        |s.map.target.required_angle - s.vehicle.state.angle|
          < toRadians 2
  · have hstep : Simulation.step s = { s with
        vehicle := { s.vehicle with has_arrived := true }
        trajectory := s.trajectory ++
          [⟨s.time, s.vehicle.state.position.x, s.vehicle.state.position.y,
            toDegrees s.vehicle.state.angle, s.vehicle.state.velocity,
            euclidean_distance s.vehicle.state.position
              s.map.target.position⟩] } := by
      unfold Simulation.step
      rw [hna]
      simp only [Bool.false_eq_true, if_false]
      rw [hd, ha, if_pos hcond]
    refine ⟨?_, fun _ => ?_, fun hc => absurd hcond hc⟩
    · simp [hstep, hcond]
    · simp [hstep]
  · refine ⟨?_, fun hc => absurd hc hcond, fun _ => ?_⟩
    · unfold Simulation.step
      rw [hna]
      simp only [Bool.false_eq_true, if_false]
      rw [hd, ha, if_neg hcond]
      simp [Vehicle.update_position, hna, hcond]
    · refine ⟨?_, ?_, ?_, ?_, ?_⟩ <;>
        (unfold Simulation.step
         rw [hna]
         simp only [Bool.false_eq_true, if_false]
         rw [hd, ha, if_neg hcond]) <;>
      first
        | rfl
        | exact ⟨_, rfl⟩
        | simp [Vehicle.update_position, hna]

/-- A concrete running (not arrived) simulation state for the witnesses. -/
def demoSimRunning : Simulation :=
  Simulation.new demoMap .Heavy 0.05 600 ⟨500, 690⟩ (Real.pi / 2)

/-- C1 witness: the arrival-check theorem applied to a concrete
not-yet-arrived state with the standard thresholds. -/
theorem step_arrival_iff_thresholds_witness :
    demoSimRunning.vehicle.has_arrived = false ∧
    demoSimRunning.distance_threshold = 25 ∧
    demoSimRunning.angle_threshold = toRadians 2 ∧
    ((Simulation.step demoSimRunning).vehicle.has_arrived = true ↔
      (euclidean_distance demoSimRunning.vehicle.state.position
          demoSimRunning.map.target.position < 25 ∧
        |demoSimRunning.map.target.required_angle
            - demoSimRunning.vehicle.state.angle| < toRadians 2)) :=
  ⟨rfl, rfl, rfl, (step_arrival_iff_thresholds demoSimRunning rfl rfl rfl).1⟩

theorem f64Epsilon_pos : (0:ℝ) < f64Epsilon := by
  norm_num [f64Epsilon]

/-- The construction preconditions named by the spec for each variant:
ordering of the break points, positive sigma, nonzero slope. -/
def MembershipFunction.validParams : MembershipFunction → Prop
  | .triangularMF a b c => a ≤ b ∧ b ≤ c
  | .trapezoidalMF a b c d => a ≤ b ∧ b ≤ c ∧ c ≤ d
  | .gaussianMF _ sigma => 0 < sigma
  | .sigmoidalMF a _ => a ≠ 0

/-- C6: for every membership-function variant whose parameters satisfy
the construction precondition, the evaluation at every input lies in the
unit interval [0, 1]. -/
theorem evaluate_mem_unit_interval (mf : MembershipFunction)
    (h : mf.validParams) (x : ℝ) :
    0 ≤ mf.evaluate x ∧ mf.evaluate x ≤ 1 := by
  have hε : (0:ℝ) < f64Epsilon := f64Epsilon_pos
  cases mf with
  | triangularMF a b c =>
    obtain ⟨hab, hbc⟩ := h
    simp only [MembershipFunction.evaluate]
    split_ifs with h₁ h₂ h₃ h₄ h₅
    · exact ⟨le_refl 0, zero_le_one⟩
    · exact ⟨zero_le_one, le_refl 1⟩
    · exact ⟨le_refl 0, zero_le_one⟩
    · push_neg at h₁ h₄
      have hba : f64Epsilon ≤ b - a := by
        rwa [abs_of_nonneg (by linarith)] at h₄
      constructor
      · exact div_nonneg (by linarith [h₁.1]) (by linarith)
      · exact (div_le_one (by linarith)).mpr (by linarith)
    · exact ⟨le_refl 0, zero_le_one⟩
    · push_neg at h₁ h₃ h₅
      have hcb : f64Epsilon ≤ c - b := by
        rwa [abs_of_nonneg (by linarith)] at h₅
      constructor
      · exact div_nonneg (by linarith [h₁.2]) (by linarith)
      · exact (div_le_one (by linarith)).mpr (by linarith [h₃])
  | trapezoidalMF a b c d =>
    obtain ⟨hab, hbc, hcd⟩ := h
    simp only [MembershipFunction.evaluate]
    split_ifs with h₁ h₂ h₃ h₄ h₅
    · exact ⟨le_refl 0, zero_le_one⟩
    · exact ⟨zero_le_one, le_refl 1⟩
    · exact ⟨le_refl 0, zero_le_one⟩
    · push_neg at h₁ h₄
      have hba : f64Epsilon ≤ b - a := by
        rwa [abs_of_nonneg (by linarith)] at h₄
      constructor
      · exact div_nonneg (by linarith [h₁.1]) (by linarith)
      · exact (div_le_one (by linarith)).mpr (by linarith)
    · exact ⟨le_refl 0, zero_le_one⟩
    · push_neg at h₁ h₂ h₃ h₅
      have hdc : f64Epsilon ≤ d - c := by
        rwa [abs_of_nonneg (by linarith)] at h₅
      have hci : c < x := h₂ h₃
      constructor
      · exact div_nonneg (by linarith [h₁.2]) (by linarith)
      · exact (div_le_one (by linarith)).mpr (by linarith)
  | gaussianMF mean sigma =>
    simp only [MembershipFunction.evaluate]
    constructor
    · exact (Real.exp_pos _).le
    · rw [Real.exp_le_one_iff]
      apply div_nonpos_of_nonpos_of_nonneg
      · simp [sq_nonneg]
      · positivity
  | sigmoidalMF a c =>
    simp only [MembershipFunction.evaluate]
    have hpos : (0:ℝ) < 1 + Real.exp (-a * (x - c)) := by
      have := Real.exp_pos (-a * (x - c))
      linarith
    constructor
    · positivity
    · rw [div_le_one hpos]
      have := Real.exp_pos (-a * (x - c))
      linarith

/-- C6 witness: the bound theorem applied to Triangular(0,5,10) at 3. -/
theorem evaluate_mem_unit_interval_witness :
    (MembershipFunction.triangularMF 0 5 10).validParams ∧
      (0 ≤ (MembershipFunction.triangularMF 0 5 10).evaluate 3 ∧
        (MembershipFunction.triangularMF 0 5 10).evaluate 3 ≤ 1) :=
  ⟨by constructor <;> norm_num,
    evaluate_mem_unit_interval _ (by constructor <;> norm_num) 3⟩

/-- C7 counterexample: `sigmoidal` with `a = 2⁻⁵³` aborts construction
(the assert checks `a.abs() > f64::EPSILON`) although `a ≠ 0`, so
"aborts iff a = 0" is false as stated. -/
theorem sigmoidal_aborts_on_nonzero_small_a :
    sigmoidal (1 / 2 ^ 53) 0 = none ∧ (1 / 2 ^ 53 : ℝ) ≠ 0 := by
  constructor
  · unfold sigmoidal
    rw [if_neg]
    norm_num [f64Epsilon, abs_of_pos]
  · norm_num

/-- C7 (amended): each constructor aborts construction exactly when its
asserted precondition fails — `triangular` iff not `a ≤ b ≤ c`,
`trapezoidal` iff not `a ≤ b ≤ c ≤ d`, `gaussian` iff not `sigma > 0`,
and `sigmoidal` iff not `|a| > f64::EPSILON` (the source checks the
magnitude of `a` against machine epsilon, not `a = 0`). -/
theorem constructor_abort_iff :
    (∀ a b c : ℝ, triangular a b c = none ↔ ¬(a ≤ b ∧ b ≤ c)) ∧
    (∀ a b c d : ℝ,
      trapezoidal a b c d = none ↔ ¬(a ≤ b ∧ b ≤ c ∧ c ≤ d)) ∧
    (∀ mean sigma : ℝ, gaussian mean sigma = none ↔ ¬(sigma > 0)) ∧
    (∀ a c : ℝ, sigmoidal a c = none ↔ ¬(|a| > f64Epsilon)) := by
  refine ⟨fun a b c => ?_, fun a b c d => ?_, fun mean sigma => ?_,
    fun a c => ?_⟩ <;>
    (first
      | unfold triangular
      | unfold trapezoidal
      | unfold gaussian
      | unfold sigmoidal) <;>
    (split_ifs with h <;> simp [h])

/-- The list of degrees collected by the antecedent loop of
`FuzzyRule::evaluate`: only antecedents whose variable and set both
resolve contribute. -/
def resolvedDegrees (r : FuzzyRule)
    (inputs : String → Option (String → Option ℝ)) : List ℝ :=
  r.antecedents.filterMap (resolveAntecedent inputs)

theorem foldl_min_mem (ds : List ℝ) : ∀ d : ℝ, ds.foldl min d ∈ d :: ds := by
  induction ds with
  | nil => intro d; simp
  | cons e es ih =>
    intro d
    simp only [List.foldl_cons, List.mem_cons]
    rcases List.mem_cons.mp (ih (min d e)) with h | h
    · rcases min_choice d e with hc | hc
      · exact Or.inl (h.trans hc)
      · exact Or.inr (Or.inl (h.trans hc))
    · exact Or.inr (Or.inr h)

theorem foldl_min_le (ds : List ℝ) :
    ∀ d : ℝ, ∀ x ∈ d :: ds, ds.foldl min d ≤ x := by
  induction ds with
  | nil =>
    intro d x hx
    simp at hx
    simp [hx]
  | cons e es ih =>
    intro d x hx
    simp only [List.foldl_cons]
    have hbase : es.foldl min (min d e) ≤ min d e :=
      ih (min d e) (min d e) (List.mem_cons_self _ _)
    rcases List.mem_cons.mp hx with h | hx₁
    · rw [h]
      exact le_trans hbase (min_le_left d e)
    · rcases List.mem_cons.mp hx₁ with h | hx₂
      · rw [h]
        exact le_trans hbase (min_le_right d e)
      · exact ih (min d e) x (List.mem_cons_of_mem _ hx₂)

theorem foldl_max_mem (ds : List ℝ) : ∀ d : ℝ, ds.foldl max d ∈ d :: ds := by
  induction ds with
  | nil => intro d; simp
  | cons e es ih =>
    intro d
    simp only [List.foldl_cons, List.mem_cons]
    rcases List.mem_cons.mp (ih (max d e)) with h | h
    · rcases max_choice d e with hc | hc
      · exact Or.inl (h.trans hc)
      · exact Or.inr (Or.inl (h.trans hc))
    · exact Or.inr (Or.inr h)

theorem foldl_max_ge (ds : List ℝ) :
    ∀ d : ℝ, ∀ x ∈ d :: ds, x ≤ ds.foldl max d := by
  induction ds with
  | nil =>
    intro d x hx
    simp at hx
    simp [hx]
  | cons e es ih =>
    intro d x hx
    simp only [List.foldl_cons]
    have hbase : max d e ≤ es.foldl max (max d e) :=
      ih (max d e) (max d e) (List.mem_cons_self _ _)
    rcases List.mem_cons.mp hx with h | hx₁
    · rw [h]
      exact le_trans (le_max_left d e) hbase
    · rcases List.mem_cons.mp hx₁ with h | hx₂
      · rw [h]
        exact le_trans (le_max_right d e) hbase
      · exact ih (max d e) x (List.mem_cons_of_mem _ hx₂)

/-- C5: `FuzzyRule::evaluate` collects only the degrees of antecedents
that resolve in the fuzzification mapping; an antecedent with a missing
lookup is skipped entirely (deleting it from the rule leaves the result
unchanged); with no resolved antecedent the strength is 0; otherwise AND
returns the minimum of the collected degrees and OR the maximum. -/
theorem rule_evaluate_min_max (r : FuzzyRule)
    (inputs : String → Option (String → Option ℝ)) :
    (resolvedDegrees r inputs = [] → r.evaluate inputs = 0) ∧
    (∀ a : Antecedent, resolveAntecedent inputs a = none →
      ∀ l₁ l₂, r.antecedents = l₁ ++ a :: l₂ →
        FuzzyRule.evaluate ⟨l₁ ++ l₂, r.consequents, r.operator⟩ inputs
          = r.evaluate inputs) ∧
    (resolvedDegrees r inputs ≠ [] →
      (r.operator = .And →
        r.evaluate inputs ∈ resolvedDegrees r inputs ∧
          ∀ d ∈ resolvedDegrees r inputs, r.evaluate inputs ≤ d) ∧
      (r.operator = .Or →
        r.evaluate inputs ∈ resolvedDegrees r inputs ∧
          ∀ d ∈ resolvedDegrees r inputs, d ≤ r.evaluate inputs)) := by
  refine ⟨fun hnil => ?_, fun a hnone l₁ l₂ hsplit => ?_, fun hne => ?_⟩
  · unfold FuzzyRule.evaluate
    rw [show r.antecedents.filterMap (resolveAntecedent inputs)
        = resolvedDegrees r inputs from rfl, hnil]
  · unfold FuzzyRule.evaluate
    simp only
    rw [hsplit, List.filterMap_append, List.filterMap_append,
      List.filterMap_cons, hnone]
  · obtain ⟨d, ds, hds⟩ := List.exists_cons_of_ne_nil hne
    have heval : ∀ op : RuleOperator, r.operator = op →
        r.evaluate inputs = match op with
          | .And => ds.foldl min d
          | .Or => ds.foldl max d := by
      intro op hop
      unfold FuzzyRule.evaluate
      rw [show r.antecedents.filterMap (resolveAntecedent inputs)
          = resolvedDegrees r inputs from rfl, hds, hop]
    constructor
    · intro hop
      rw [heval .And hop, hds]
      exact ⟨foldl_min_mem ds d, foldl_min_le ds d⟩
    · intro hop
      rw [heval .Or hop, hds]
      exact ⟨foldl_max_mem ds d, foldl_max_ge ds d⟩

/-- A concrete rule for the C5 witness: AND over two antecedents. -/
def demoRule : FuzzyRule :=
  { antecedents := [⟨"cerca", "dist"⟩, ⟨"alineado", "ang"⟩]
    consequents := [⟨"mantener", "out"⟩]
    operator := .And }

/-- A concrete fuzzification mapping for the C5 witness. -/
def demoInputs : String → Option (String → Option ℝ) := fun vn =>
  if vn = "dist" then
    some (fun sn => if sn = "cerca" then some 0.3 else none)
  else if vn = "ang" then
    some (fun sn => if sn = "alineado" then some 0.7 else none)
  else none

/-- C5 witness: the rule-evaluation theorem applied to a concrete AND
rule whose two antecedents resolve to degrees 0.3 and 0.7. -/
theorem rule_evaluate_min_max_witness :
    resolvedDegrees demoRule demoInputs ≠ [] ∧
      demoRule.operator = .And ∧
      (demoRule.evaluate demoInputs ∈ resolvedDegrees demoRule demoInputs ∧
        ∀ d ∈ resolvedDegrees demoRule demoInputs,
          demoRule.evaluate demoInputs ≤ d) := by
  have hne : resolvedDegrees demoRule demoInputs ≠ [] := by
    simp [resolvedDegrees, resolveAntecedent, demoRule, demoInputs]
  exact ⟨hne, rfl, ((rule_evaluate_min_max demoRule demoInputs).2.2 hne).1 rfl⟩

/-- C2 counterexample: the controller built for the Heavy preset
contains 11 rules, not 12. -/
theorem nav_controller_not_twelve_rules :
    (NavigationController.new
        (create_vehicle_preset .Heavy)).fuzzy_system.rules.length ≠ 12 := by
  have h : (NavigationController.new
      (create_vehicle_preset .Heavy)).fuzzy_system.rules.length = 11 := rfl
  rw [h]
  decide

/-- C2 (amended): for every vehicle characteristics, the controller
contains exactly 11 rules, all with combinator AND: nine rules pairing
each of the distance sets (muy_cerca, media, lejos) with each of the
angular-error sets (alineado, desviado_izq, desviado_der), plus two
single-antecedent override rules for muy_desviado_izq and
muy_desviado_der that fire regardless of distance. -/
theorem nav_controller_rule_base (ch : VehicleCharacteristics) :
    (NavigationController.new ch).fuzzy_system.rules.length = 11 ∧
    (NavigationController.new ch).fuzzy_system.rules.map
        (fun r => r.operator) = List.replicate 11 RuleOperator.And ∧
    (NavigationController.new ch).fuzzy_system.rules.map
        (fun r => (r.antecedents.map (fun a => (a.var, a.set)),
          r.consequents.map (fun c => (c.var, c.set))))
      = [ ([("distancia_al_objetivo", "lejos"),
            ("error_angular", "alineado")],
           [("ajuste_angular", "mantener")])
        , ([("distancia_al_objetivo", "lejos"),
            ("error_angular", "desviado_der")],
           [("ajuste_angular", "girar_der")])
        , ([("distancia_al_objetivo", "lejos"),
            ("error_angular", "desviado_izq")],
           [("ajuste_angular", "girar_izq")])
        , ([("distancia_al_objetivo", "media"),
            ("error_angular", "alineado")],
           [("ajuste_angular", "mantener")])
        , ([("distancia_al_objetivo", "media"),
            ("error_angular", "desviado_der")],
           [("ajuste_angular", "leve_der")])
        , ([("distancia_al_objetivo", "media"),
            ("error_angular", "desviado_izq")],
           [("ajuste_angular", "leve_izq")])
        , ([("distancia_al_objetivo", "muy_cerca"),
            ("error_angular", "alineado")],
           [("ajuste_angular", "mantener")])
        , ([("error_angular", "muy_desviado_izq")],
           [("ajuste_angular", "girar_izq")])
        , ([("error_angular", "muy_desviado_der")],
           [("ajuste_angular", "girar_der")])
        , ([("distancia_al_objetivo", "muy_cerca"),
            ("error_angular", "desviado_izq")],
           [("ajuste_angular", "leve_izq")])
        , ([("distancia_al_objetivo", "muy_cerca"),
            ("error_angular", "desviado_der")],
           [("ajuste_angular", "leve_der")]) ] :=
  ⟨rfl, rfl, rfl⟩

theorem atan2_pos_y_zero_x (y : ℝ) (hy : 0 < y) : atan2 y 0 = Real.pi / 2 := by
  unfold atan2
  rw [if_neg (lt_irrefl 0), if_neg (lt_irrefl 0), if_pos hy]

theorem atan2_neg_y_zero_x (y : ℝ) (hy : y < 0) :
    atan2 y 0 = -(Real.pi / 2) := by
  unfold atan2
  rw [if_neg (lt_irrefl 0), if_neg (lt_irrefl 0),
    if_neg (not_lt.mpr hy.le), if_pos hy]

/-- C3 counterexample: with a target requiring arrival angle −π/2 at
(0, 50), a vehicle at the origin heading 0 and distance 120, the source
displaces the aim point straight down — giving angular error −π/2 —
while the spec wording (displacement opposite the required-arrival-angle
direction) gives +π/2.  The claim as stated is therefore false. -/
theorem approach_point_direction_counterexample :
    compute_angular_error_with_arrival ⟨0, 0⟩ 0 ⟨⟨0, 50⟩, -(Real.pi / 2)⟩ 120
      ≠ compute_angular_error_with_arrival_spec ⟨0, 0⟩ 0
          ⟨⟨0, 50⟩, -(Real.pi / 2)⟩ 120 := by
  have hπ : (0:ℝ) < Real.pi := Real.pi_pos
  have h1 : compute_angular_error_with_arrival ⟨0, 0⟩ 0
      ⟨⟨0, 50⟩, -(Real.pi / 2)⟩ 120 = -(Real.pi / 2) := by
    unfold compute_angular_error_with_arrival compute_angular_error
    norm_num [Real.one_rpow]
    rw [atan2_neg_y_zero_x _ (by norm_num)]
    exact normalize_angle_eq_self _ (by linarith) (by linarith)
  have h2 : compute_angular_error_with_arrival_spec ⟨0, 0⟩ 0
      ⟨⟨0, 50⟩, -(Real.pi / 2)⟩ 120 = Real.pi / 2 := by
    unfold compute_angular_error_with_arrival_spec compute_angular_error
    norm_num [Real.one_rpow, Real.cos_pi_div_two, Real.sin_pi_div_two,
      Real.cos_neg, Real.sin_neg]
    rw [atan2_pos_y_zero_x _ (by norm_num)]
    exact normalize_angle_eq_self _ (by linarith) (by linarith)
  rw [h1, h2]
  intro h
  linarith

/-- C3 (amended): for every vehicle position, heading, target and
distance d, the angular error of `compute_angular_error_with_arrival`
is the normalized signed difference between the bearing `atan2(dy,dx)`
toward the active aim point and the current heading; for d > 120 the aim
point is the target itself, for d ≤ 120 it is the target displaced
straight down (negative y — which coincides with "opposite the required
arrival angle" only for the π/2 angle the Map constructor always uses)
by `offset = 100·(d/120)^1.5`; in both branches the result is wrapped to
[-π, π]. -/
theorem angular_error_with_arrival_branches (pos : Point) (θ : ℝ)
    (tgt : Target) (d : ℝ) :
    (-Real.pi ≤ compute_angular_error_with_arrival pos θ tgt d ∧
      compute_angular_error_with_arrival pos θ tgt d ≤ Real.pi) ∧
    (d > 120 → compute_angular_error_with_arrival pos θ tgt d
      = normalize_angle
          (atan2 (tgt.position.y - pos.y) (tgt.position.x - pos.x) - θ)) ∧
    (d ≤ 120 → compute_angular_error_with_arrival pos θ tgt d
      = normalize_angle
          (atan2 (tgt.position.y - 100 * (d / 120) ^ (1.5:ℝ) - pos.y)
            (tgt.position.x - pos.x) - θ)) := by
  by_cases hd : d > 120
  · have hbr : compute_angular_error_with_arrival pos θ tgt d
        = normalize_angle
            (atan2 (tgt.position.y - pos.y) (tgt.position.x - pos.x) - θ) := by
      unfold compute_angular_error_with_arrival compute_angular_error
      rw [if_pos hd]
    exact ⟨hbr ▸ normalize_angle_mem _, fun _ => hbr,
      fun hle => absurd hd (not_lt.mpr hle)⟩
  · have hbr : compute_angular_error_with_arrival pos θ tgt d
        = normalize_angle
            (atan2 (tgt.position.y - 100 * (d / 120) ^ (1.5:ℝ) - pos.y)
              (tgt.position.x - pos.x) - θ) := by
      unfold compute_angular_error_with_arrival compute_angular_error
      rw [if_neg hd]
    exact ⟨hbr ▸ normalize_angle_mem _, fun hgt => absurd hgt hd,
      fun _ => hbr⟩

/-- C3 witness: the branch theorem applied at distance 300 (> 120). -/
theorem angular_error_with_arrival_branches_witness :
    (300:ℝ) > 120 ∧
      compute_angular_error_with_arrival ⟨0, 0⟩ 0 ⟨⟨0, 300⟩, Real.pi / 2⟩ 300
        = normalize_angle (atan2 (300 - 0) (0 - 0) - 0) :=
  ⟨by norm_num,
    (angular_error_with_arrival_branches ⟨0, 0⟩ 0 ⟨⟨0, 300⟩, Real.pi / 2⟩
      300).2.1 (by norm_num)⟩

theorem foldl_ge_init {α : Type} (f : ℝ → α → ℝ)
    (hf : ∀ acc a, acc ≤ f acc a) :
    ∀ (l : List α) (acc : ℝ), acc ≤ l.foldl f acc := by
  intro l
  induction l with
  | nil => intro acc; simp
  | cons a as ih =>
    intro acc
    simp only [List.foldl_cons]
    exact le_trans (hf acc a) (ih (f acc a))

theorem aggregatedMembership_nonneg (v : LinguisticVariable)
    (act : List (String × ℝ)) (x : ℝ) :
    0 ≤ aggregatedMembership v act x := by
  unfold aggregatedMembership
  apply foldl_ge_init
  intro acc s
  cases h : lookupLast act s.name with
  | none => simp [h]
  | some degree => simp only [h]; exact le_max_left _ _

/-- The centroid stays inside the output range: the non-fallback branch
is a non-negatively weighted average of sample points that all lie in
the range; the fallback midpoint also does. -/
theorem centroid_bounds (v : LinguisticVariable) (act : List (String × ℝ))
    (hle : v.range.1 ≤ v.range.2) :
    v.range.1 ≤ Defuzzifier.centroid v act ∧
      Defuzzifier.centroid v act ≤ v.range.2 := by
  have hm : ∀ i : ℕ, 0 ≤ aggregatedMembership v act
      (v.range.1 + i * ((v.range.2 - v.range.1) / (defuzzifierSteps:ℝ))) :=
    fun i => aggregatedMembership_nonneg v act _
  have hstep_nonneg :
      0 ≤ (v.range.2 - v.range.1) / (defuzzifierSteps:ℝ) :=
    div_nonneg (by linarith) (by norm_num [defuzzifierSteps])
  have hx_lo : ∀ i : ℕ, v.range.1 ≤ v.range.1 +
      i * ((v.range.2 - v.range.1) / (defuzzifierSteps:ℝ)) := fun i =>
    le_add_of_nonneg_right (mul_nonneg (Nat.cast_nonneg i) hstep_nonneg)
  have hx_hi : ∀ i ∈ Finset.range (defuzzifierSteps + 1),
      v.range.1 + i * ((v.range.2 - v.range.1) / (defuzzifierSteps:ℝ))
        ≤ v.range.2 := by
    intro i hi
    have hin : (i:ℝ) ≤ (defuzzifierSteps:ℝ) := by
      exact_mod_cast Nat.lt_succ_iff.mp (Finset.mem_range.mp hi)
    have hmul : (i:ℝ) * ((v.range.2 - v.range.1) / (defuzzifierSteps:ℝ))
        ≤ (defuzzifierSteps:ℝ)
          * ((v.range.2 - v.range.1) / (defuzzifierSteps:ℝ)) :=
      mul_le_mul_of_nonneg_right hin hstep_nonneg
    have hds : (defuzzifierSteps:ℝ)
        * ((v.range.2 - v.range.1) / (defuzzifierSteps:ℝ))
        = v.range.2 - v.range.1 := by
      have hne : (defuzzifierSteps:ℝ) ≠ 0 := by norm_num [defuzzifierSteps]
      rw [mul_comm]
      exact div_mul_cancel₀ _ hne
    linarith
  have hcentroid : Defuzzifier.centroid v act =
      if (∑ i ∈ Finset.range (defuzzifierSteps + 1),
          aggregatedMembership v act (v.range.1 +
            i * ((v.range.2 - v.range.1) / (defuzzifierSteps:ℝ))))
          < f64Epsilon
      then (v.range.1 + v.range.2) / 2
      else (∑ i ∈ Finset.range (defuzzifierSteps + 1),
          (v.range.1 + i * ((v.range.2 - v.range.1) / (defuzzifierSteps:ℝ)))
            * aggregatedMembership v act (v.range.1 +
              i * ((v.range.2 - v.range.1) / (defuzzifierSteps:ℝ))))
        / (∑ i ∈ Finset.range (defuzzifierSteps + 1),
          aggregatedMembership v act (v.range.1 +
            i * ((v.range.2 - v.range.1) / (defuzzifierSteps:ℝ)))) := rfl
  rw [hcentroid]
  split_ifs with hD
  · constructor <;> linarith
  · have hDpos : 0 < ∑ i ∈ Finset.range (defuzzifierSteps + 1),
        aggregatedMembership v act (v.range.1 +
          i * ((v.range.2 - v.range.1) / (defuzzifierSteps:ℝ))) :=
      lt_of_lt_of_le f64Epsilon_pos (not_lt.mp hD)
    have hN_lo : v.range.1 * (∑ i ∈ Finset.range (defuzzifierSteps + 1),
        aggregatedMembership v act (v.range.1 +
          i * ((v.range.2 - v.range.1) / (defuzzifierSteps:ℝ))))
        ≤ ∑ i ∈ Finset.range (defuzzifierSteps + 1),
          (v.range.1 + i * ((v.range.2 - v.range.1) / (defuzzifierSteps:ℝ)))
            * aggregatedMembership v act (v.range.1 +
              i * ((v.range.2 - v.range.1) / (defuzzifierSteps:ℝ))) := by
      rw [Finset.mul_sum]
      apply Finset.sum_le_sum
      intro i _
      exact mul_le_mul_of_nonneg_right (hx_lo i) (hm i)
    have hN_hi : (∑ i ∈ Finset.range (defuzzifierSteps + 1),
        (v.range.1 + i * ((v.range.2 - v.range.1) / (defuzzifierSteps:ℝ)))
          * aggregatedMembership v act (v.range.1 +
            i * ((v.range.2 - v.range.1) / (defuzzifierSteps:ℝ))))
        ≤ v.range.2 * (∑ i ∈ Finset.range (defuzzifierSteps + 1),
          aggregatedMembership v act (v.range.1 +
            i * ((v.range.2 - v.range.1) / (defuzzifierSteps:ℝ)))) := by
      rw [Finset.mul_sum]
      apply Finset.sum_le_sum
      intro i hi
      exact mul_le_mul_of_nonneg_right (hx_hi i hi) (hm i)
    constructor
    · rw [le_div_iff₀ hDpos]
      linarith
    · rw [div_le_iff₀ hDpos]
      linarith

/-- C10: for every output variable with an ordered range and every
activation map with non-negative degrees, the centroid lies within the
output range (it is a non-negatively weighted average of in-range sample
points, or the midpoint); consequently the angular adjustment of the
navigation controller already lies within [-maneuverability,
+maneuverability] before the clamp of the simulation is applied. -/
theorem centroid_in_range_controller_bounded :
    (∀ (v : LinguisticVariable) (act : List (String × ℝ)),
      v.range.1 ≤ v.range.2 → (∀ p ∈ act, 0 ≤ p.2) →
      v.range.1 ≤ Defuzzifier.centroid v act ∧
        Defuzzifier.centroid v act ≤ v.range.2) ∧
    (∀ (ch : VehicleCharacteristics) (d e vel : ℝ),
      0 ≤ ch.maneuverability →
      -ch.maneuverability
          ≤ ((NavigationController.new ch).compute_control d e vel).1 ∧
        ((NavigationController.new ch).compute_control d e vel).1
          ≤ ch.maneuverability) := by
  refine ⟨fun v act hle _ => centroid_bounds v act hle,
    fun ch d e vel hman => ?_⟩
  have hle : (navOutVar ch.maneuverability).range.1
      ≤ (navOutVar ch.maneuverability).range.2 := by
    show -ch.maneuverability ≤ ch.maneuverability
    linarith
  have h := centroid_bounds (navOutVar ch.maneuverability)
    ((NavigationController.new ch).fuzzy_system.activatedOutputs
      [ ("distancia_al_objetivo", d)
      , ("error_angular", e)
      , ("velocidad_relativa", vel) ]) hle
  exact h

/-- C10 witness: the bound applied to the Heavy vehicle preset at a
concrete controller input. -/
theorem centroid_in_range_controller_bounded_witness :
    0 ≤ (create_vehicle_preset .Heavy).maneuverability ∧
      (-(create_vehicle_preset .Heavy).maneuverability
          ≤ ((NavigationController.new
              (create_vehicle_preset .Heavy)).compute_control 500 0 0.1).1 ∧
        ((NavigationController.new
            (create_vehicle_preset .Heavy)).compute_control 500 0 0.1).1
          ≤ (create_vehicle_preset .Heavy).maneuverability) := by
  have hman : 0 ≤ (create_vehicle_preset .Heavy).maneuverability := by
    show 0 ≤ toRadians 20
    unfold toRadians
    positivity
  exact ⟨hman,
    centroid_in_range_controller_bounded.2 (create_vehicle_preset .Heavy)
      500 0 0.1 hman⟩

theorem lookupLast_mem {α : Type} (l : List (String × α)) (k : String)
    (v : α) (h : lookupLast l k = some v) : ∃ p ∈ l, p.2 = v := by
  unfold lookupLast at h
  cases hf : l.reverse.find? (fun p => p.1 == k) with
  | none => rw [hf] at h; simp at h
  | some p =>
    rw [hf] at h
    have h₂ : p.2 = v := by simpa using h
    exact ⟨p, List.mem_reverse.mp (List.mem_of_find?_eq_some hf), h₂⟩

theorem aggregatedMembership_zero_of_nonpos (v : LinguisticVariable)
    (act : List (String × ℝ)) (hact : ∀ p ∈ act, p.2 ≤ 0) (x : ℝ) :
    aggregatedMembership v act x = 0 := by
  unfold aggregatedMembership
  generalize v.fuzzy_sets = sets
  induction sets with
  | nil => rfl
  | cons s ss ih =>
    simp only [List.foldl_cons]
    cases hl : lookupLast act s.name with
    | none => simpa [hl] using ih
    | some degree =>
      obtain ⟨p, hp, hpv⟩ := lookupLast_mem act s.name degree hl
      have hdeg : degree ≤ 0 := hpv ▸ hact p hp
      have hzero : max 0 (min (s.evaluate x) degree) = 0 :=
        max_eq_left (le_trans (min_le_right _ _) hdeg)
      simpa [hl, hzero] using ih

/-- C4 (amended): for every output variable and every activation map in
which every activation degree is nonpositive — in particular the empty
map — `Defuzzifier::centroid` returns exactly the midpoint
`(range.min + range.max) / 2`; it never fails (it is a total function). -/
theorem centroid_midpoint_on_no_activation (v : LinguisticVariable)
    (act : List (String × ℝ)) (hact : ∀ p ∈ act, p.2 ≤ 0) :
    Defuzzifier.centroid v act = (v.range.1 + v.range.2) / 2 := by
  have hD : (∑ i ∈ Finset.range (defuzzifierSteps + 1),
      aggregatedMembership v act (v.range.1 +
        i * ((v.range.2 - v.range.1) / (defuzzifierSteps:ℝ)))) = 0 :=
    Finset.sum_eq_zero fun i _ => aggregatedMembership_zero_of_nonpos
      v act hact _
  rw [show Defuzzifier.centroid v act =
      (if (∑ i ∈ Finset.range (defuzzifierSteps + 1),
          aggregatedMembership v act (v.range.1 +
            i * ((v.range.2 - v.range.1) / (defuzzifierSteps:ℝ))))
          < f64Epsilon
      then (v.range.1 + v.range.2) / 2
      else (∑ i ∈ Finset.range (defuzzifierSteps + 1),
          (v.range.1 + i * ((v.range.2 - v.range.1) / (defuzzifierSteps:ℝ)))
            * aggregatedMembership v act (v.range.1 +
              i * ((v.range.2 - v.range.1) / (defuzzifierSteps:ℝ))))
        / (∑ i ∈ Finset.range (defuzzifierSteps + 1),
          aggregatedMembership v act (v.range.1 +
            i * ((v.range.2 - v.range.1) / (defuzzifierSteps:ℝ))))) from rfl,
    hD, if_pos f64Epsilon_pos]

/-- The output variable of the C4 counterexample: a single asymmetric
triangular set on the range (0, 1000). -/
def cexOutVar : LinguisticVariable :=
  { name := "salida"
    fuzzy_sets := [⟨"s", .triangularMF 0 0 (3/2)⟩]
    range := (0, 1000) }

/-- The activation map of the C4 counterexample: one activation exactly
at `f64::EPSILON` (not above it). -/
def cexActivation : List (String × ℝ) := [("s", f64Epsilon)]

/-- C4 witness: the amended midpoint theorem applied to the empty
activation map. -/
theorem centroid_midpoint_on_no_activation_witness :
    (∀ p ∈ ([] : List (String × ℝ)), p.2 ≤ 0) ∧
      Defuzzifier.centroid cexOutVar []
        = (cexOutVar.range.1 + cexOutVar.range.2) / 2 :=
  ⟨by simp, centroid_midpoint_on_no_activation cexOutVar [] (by simp)⟩

theorem cex_evaluate (i : ℕ) :
    (⟨"s", .triangularMF 0 0 (3/2)⟩ : FuzzySet).evaluate (i:ℝ)
      = if i = 0 then 1 else if i = 1 then 1/3 else 0 := by
  unfold FuzzySet.evaluate
  simp only [MembershipFunction.evaluate]
  rcases i with _ | _ | n
  · rw [if_neg (by norm_num), if_pos (by simpa using f64Epsilon_pos)]
    norm_num
  · rw [if_neg (by norm_num), if_neg (by norm_num [f64Epsilon]),
      if_neg (by norm_num),
      if_neg (by
        rw [sub_zero, abs_of_pos (by norm_num : (0:ℝ) < 3/2)]
        norm_num [f64Epsilon])]
    norm_num
  · rw [if_pos (Or.inr (by push_cast; linarith [Nat.cast_nonneg (α := ℝ) n]))]
    have h2 : ¬(n + 2 = 0) := by omega
    have h1 : ¬(n + 2 = 1) := by omega
    rw [if_neg h2, if_neg h1]

theorem cex_aggregated (i : ℕ) :
    aggregatedMembership cexOutVar cexActivation (i:ℝ)
      = if i ≤ 1 then f64Epsilon else 0 := by
  have hlook : lookupLast cexActivation "s" = some f64Epsilon := rfl
  unfold aggregatedMembership
  simp only [cexOutVar, List.foldl_cons, List.foldl_nil, hlook]
  rw [cex_evaluate i]
  rcases i with _ | _ | n
  · norm_num [min_def, max_def, f64Epsilon]
  · norm_num [min_def, max_def, f64Epsilon]
  · have h2 : ¬(n + 2 = 0) := by omega
    have h1 : ¬(n + 2 = 1) := by omega
    have hle : ¬(n + 2 ≤ 1) := by omega
    rw [if_neg h2, if_neg h1, if_neg hle]
    norm_num [min_def, max_def, f64Epsilon]

theorem cex_sample (i : ℕ) :
    cexOutVar.range.1 + (i:ℝ)
        * ((cexOutVar.range.2 - cexOutVar.range.1) / (defuzzifierSteps:ℝ))
      = (i:ℝ) := by
  show (0:ℝ) + (i:ℝ) * (((1000:ℝ) - 0) / (defuzzifierSteps:ℝ)) = (i:ℝ)
  norm_num [defuzzifierSteps]

theorem cex_denominator :
    (∑ i ∈ Finset.range (defuzzifierSteps + 1),
        (if i ≤ 1 then f64Epsilon else 0)) = 2 * f64Epsilon := by
  have hsub : Finset.range 2 ⊆ Finset.range (defuzzifierSteps + 1) :=
    Finset.range_subset.mpr (by norm_num [defuzzifierSteps])
  rw [← Finset.sum_subset hsub (fun x _ hx => by
    rw [if_neg (by simpa using hx)])]
  rw [Finset.sum_range_succ, Finset.sum_range_one]
  norm_num
  ring

theorem cex_numerator :
    (∑ i ∈ Finset.range (defuzzifierSteps + 1),
        (i:ℝ) * (if i ≤ 1 then f64Epsilon else 0)) = f64Epsilon := by
  have hsub : Finset.range 2 ⊆ Finset.range (defuzzifierSteps + 1) :=
    Finset.range_subset.mpr (by norm_num [defuzzifierSteps])
  rw [← Finset.sum_subset hsub (fun x _ hx => by
    rw [if_neg (by simpa using hx), mul_zero])]
  rw [Finset.sum_range_succ, Finset.sum_range_one]
  norm_num

/-- C4 counterexample: with one output set whose activation is exactly
`f64::EPSILON` (so no activation is above epsilon), the accumulated
denominator is `2ε ≥ ε`, the fallback is not taken, and the centroid is
1/2 — not the range midpoint 500.  The claim as stated is false. -/
theorem centroid_small_activation_not_midpoint :
    (∀ p ∈ cexActivation, ¬ p.2 > f64Epsilon) ∧
      Defuzzifier.centroid cexOutVar cexActivation
        ≠ (cexOutVar.range.1 + cexOutVar.range.2) / 2 := by
  constructor
  · intro p hp
    have hp₂ : p = ("s", f64Epsilon) := by simpa [cexActivation] using hp
    rw [hp₂]
    simp
  · have hcentroid : Defuzzifier.centroid cexOutVar cexActivation =
        if (∑ i ∈ Finset.range (defuzzifierSteps + 1),
            aggregatedMembership cexOutVar cexActivation
              (cexOutVar.range.1 + i * ((cexOutVar.range.2
                - cexOutVar.range.1) / (defuzzifierSteps:ℝ))))
            < f64Epsilon
        then (cexOutVar.range.1 + cexOutVar.range.2) / 2
        else (∑ i ∈ Finset.range (defuzzifierSteps + 1),
            (cexOutVar.range.1 + i * ((cexOutVar.range.2
              - cexOutVar.range.1) / (defuzzifierSteps:ℝ)))
              * aggregatedMembership cexOutVar cexActivation
                (cexOutVar.range.1 + i * ((cexOutVar.range.2
                  - cexOutVar.range.1) / (defuzzifierSteps:ℝ))))
          / (∑ i ∈ Finset.range (defuzzifierSteps + 1),
            aggregatedMembership cexOutVar cexActivation
              (cexOutVar.range.1 + i * ((cexOutVar.range.2
                - cexOutVar.range.1) / (defuzzifierSteps:ℝ)))) := rfl
    rw [hcentroid]
    simp only [cex_sample, cex_aggregated]
    rw [cex_denominator, cex_numerator,
      if_neg (by linarith [f64Epsilon_pos])]
    have hval : f64Epsilon / (2 * f64Epsilon) = 1 / 2 := by
      rw [div_eq_iff (ne_of_gt (by linarith [f64Epsilon_pos] :
        (0:ℝ) < 2 * f64Epsilon))]
      ring
    rw [hval]
    show (1:ℝ) / 2 ≠ ((0:ℝ) + 1000) / 2
    norm_num
